import Mathlib

/-!
Verification of `crates/cli-support/src/lib.rs` (wasm-bindgen CLI support).

The Rust source is shallowly embedded below:
* the Source Formatter `reset_indentation`,
* the Metadata Extractor `extract_programs`,
* the Deployment Shim Builder `generate_node_wasm_import`,
* the orchestrator `Bindgen::_generate`.

Strings are modelled through their character lists.  Rust's `str::lines`
iterator, `str::trim`, `u32::saturating_sub` and `Vec::remove` are embedded
explicitly.  External collaborators (`serde_json`, `parity_wasm`, the
filesystem, and the `wasm-bindgen-shared` crate's constants) are passed in as
parameters, matching the spec's treatment of them as opaque interfaces.
-/

namespace CliSupport

/-! ## Source Formatter: `reset_indentation` -/

/-- Rust `str::lines` on a character list, before the per-line `\r` strip:
split at every newline and drop the final empty segment that a trailing
newline would produce. -/
def linesCore : List Char → List (List Char)
  | [] => []
  | c :: cs =>
    if c = '\n' then [] :: linesCore cs
    else
      match linesCore cs with
      | [] => [[c]]
      | l :: ls => (c :: l) :: ls

/-- Rust `str::lines` also strips one trailing carriage return per line. -/
def stripTrailCR (l : List Char) : List Char :=
  if l.getLast? = some '\r' then l.dropLast else l

/-- Rust `str::lines`, at the character-list level. -/
def rustLinesL (cs : List Char) : List (List Char) :=
  (linesCore cs).map stripTrailCR

/-- Rust `str::lines` collected into a list of strings. -/
def rustLines (s : String) : List String :=
  (rustLinesL s.data).map String.mk

/-- Leading-whitespace strip, the first half of Rust `str::trim`. -/
def dropLeading (l : List Char) : List Char :=
  l.dropWhile Char.isWhitespace

/-- Trailing-whitespace strip, the second half of Rust `str::trim`. -/
def dropTrailing (l : List Char) : List Char :=
  (l.reverse.dropWhile Char.isWhitespace).reverse

/-- Rust `str::trim` (whitespace at both ends removed). -/
def trimL (l : List Char) : List Char :=
  dropTrailing (dropLeading l)

/-- Rust `str::trim` on strings. -/
def trimS (s : String) : String :=
  String.mk (trimL s.data)

/-- `line.starts_with(c)` on a trimmed line. -/
def lineStarts (l : List Char) (c : Char) : Bool :=
  l.head? = some c

/-- `line.ends_with(c)` on a trimmed line. -/
def lineEnds (l : List Char) (c : Char) : Bool :=
  l.getLast? = some c

/-- The pre-emission decrement: `indent = indent.saturating_sub(1)` when the
trimmed line starts with a closing brace, or ends with one and does not start
with `*`.  `Nat` subtraction is exactly `u32::saturating_sub`. -/
def decIndent (indent : Nat) (line : List Char) : Nat :=
  if lineStarts line '\x7d' || (lineEnds line '\x7d' && !lineStarts line '*') then
    indent - 1
  else indent

/-- The one-level-deeper addendum for continuation lines starting `:` or `?`. -/
def extraFor (line : List Char) : Nat :=
  if lineStarts line ':' || lineStarts line '?' then 1 else 0

/-- The emitted body of one line: `4 * (indent + extra)` spaces then the
trimmed line, or nothing for an empty line. -/
def emitFor (indent1 : Nat) (line : List Char) : List Char :=
  if line.isEmpty then ([] : List Char)
  else List.replicate (4 * (indent1 + extraFor line)) ' ' ++ line

/-- The post-emission increment when the trimmed line ends with `{`. -/
def nextIndent (indent1 : Nat) (line : List Char) : Nat :=
  if lineEnds line '\x7b' then indent1 + 1 else indent1

/-- The loop of `reset_indentation`, threaded over all lines.  Produces the
emitted line bodies (each then receives a trailing newline). -/
def formatLines : Nat → List (List Char) → List (List Char)
  | _, [] => []
  | indent, rawLine :: rest =>
    emitFor (decIndent indent (trimL rawLine)) (trimL rawLine) ::
      formatLines (nextIndent (decIndent indent (trimL rawLine)) (trimL rawLine)) rest

/-- Rejoin emitted line bodies; `dst.push_str("\n")` runs for every line. -/
def joinNL (es : List (List Char)) : List Char :=
  (es.map (fun l => l ++ ['\n'])).flatten

/-- `reset_indentation` from the source: brace-counting re-indentation. -/
def reset_indentation (s : String) : String :=
  String.mk (joinNL (formatLines 0 (rustLinesL s.data)))

/-! ## Module model

The program consumes a `parity_wasm::elements::Module` purely through section
enumeration/removal, the import section and the export section (spec §1: the
generic binary decode/encode is an external collaborator).  Sections are kept
abstract except for the data those operations touch. -/

/-- One entry of the import section; `module()` and `field()` accessors. -/
structure ImportEntry where
  module : String
  field : String
deriving DecidableEq

/-- One entry of the export section; `field()` accessor. -/
structure ExportEntry where
  field : String
deriving DecidableEq

/-- A module section: custom sections carry a name and an opaque byte payload,
import/export sections carry their entries, everything else is opaque. -/
inductive Section
  | custom (name : String) (payload : List Nat)
  | importSec (entries : List ImportEntry)
  | exportSec (entries : List ExportEntry)
  | other (tag : Nat)
deriving DecidableEq

/-- The decoded module: its ordered list of sections. -/
structure Module where
  sections : List Section
deriving DecidableEq

/-- `Module::import_section()`: the module's import section, if any. -/
def Module.import_section (m : Module) : Option (List ImportEntry) :=
  m.sections.findSome? fun s =>
    match s with
    | Section.importSec es => some es
    | _ => none

/-- `Module::export_section()`: the module's export section, if any. -/
def Module.export_section (m : Module) : Option (List ExportEntry) :=
  m.sections.findSome? fun s =>
    match s with
    | Section.exportSec es => some es
    | _ => none

/-! ## Metadata Extractor: `extract_programs` -/

/-- Modelled from the spec: `shared::ProgramOnlySchema` lives in the
`wasm-bindgen-shared` crate, outside this source tree.  §6: the record carries
"at minimum a schema-version field and a free-text version string"; the code
reads exactly `p.schema_version` and `p.version`. -/
structure ProgramOnlySchema where
  schema_version : String
  version : String
deriving DecidableEq

/-- Modelled from the spec: `shared::Program` lives in the
`wasm-bindgen-shared` crate, outside this source tree.  §3: one record lists
imported functions, exported functions and imported/exported value types with
symbolic names; nothing in `lib.rs` looks inside it, so names suffice. -/
structure Program where
  imports : List String
  exports : List String
  custom_type_names : List String
deriving DecidableEq

/-- The two `serde_json::from_slice` instantiations used by
`extract_programs`; JSON decoding is an external collaborator (spec §1), so
the decoders are parameters of the embedding. -/
structure Decoders where
  programOnly : List Nat → Except String ProgramOnlySchema
  program : List Nat → Except String Program

/-- `bail!("failed to decode what looked like wasm-bindgen data: {}", e)`. -/
def decodeFailMsg (e : String) : String :=
  "failed to decode what looked like wasm-bindgen data: " ++ e

/-- The version-mismatch diagnostic, up to the producing version. -/
def versionMsgA : String :=
  "\n\nit looks like the Rust project used to create this wasm file was linked against\na different version of wasm-bindgen than this binary:\n\n  rust wasm file: "

/-- The version-mismatch diagnostic, between the two versions. -/
def versionMsgB : String :=
  "\n     this binary: "

/-- The version-mismatch diagnostic, after the consuming version. -/
def versionMsgC : String :=
  "\n\nCurrently the bindgen format is unstable enough that these two version must\nexactly match, so it\x27s required that these two version are kept in sync by\neither updating the wasm-bindgen dependency or this binary. You should be able\nto update the wasm-bindgen dependency with:\n\n    cargo update -p wasm-bindgen\n\nor you can update the binary with\n\n    cargo install -f wasm-bindgen-cli\n\nif this warning fails to go away though and you\x27re not sure what to do feel free\nto open an issue at https://github.com/rustwasm/wasm-bindgen/issues!\n"

/-- The full `bail!` message of the version compatibility gate, naming the
producing version (from the record) and the consuming version
(`shared::version()`). -/
def versionMismatchMsg (theirs mine : String) : String :=
  versionMsgA ++ theirs ++ versionMsgB ++ mine ++ versionMsgC

/-- Failure of the record-decoding loop: `bail!` returns an error, while an
out-of-range index or `split_at` is a Rust panic, kept distinct. -/
inductive RecErr
  | panicOOB
  | bailed (msg : String)
deriving DecidableEq

/-- The `while payload.len() > 0` loop of `extract_programs`.  Each record is
a 4-byte little-endian length prefix (`payload[0] | payload[1] << 8 | ...`;
bytes are below 256 so the bitwise-or of disjoint shifts is the sum) followed
by that many bytes handed to the decoders.  `payload[1..3]` with fewer than 4
bytes left, and `split_at(len)` with `len` beyond the slice, are panics. -/
def processPayload (dec : Decoders) (sv ver : String) : List Nat → Except RecErr (List Program)
  | [] => Except.ok []
  | [_] => Except.error RecErr.panicOOB
  | [_, _] => Except.error RecErr.panicOOB
  | [_, _, _] => Except.error RecErr.panicOOB
  | b0 :: b1 :: b2 :: b3 :: rest4 =>
    let len := b0 + b1 * 256 + b2 * 65536 + b3 * 16777216
    if len ≤ rest4.length then
      match dec.programOnly (rest4.take len) with
      | Except.error e => Except.error (RecErr.bailed (decodeFailMsg e))
      | Except.ok p =>
        if p.schema_version ≠ sv then
          Except.error (RecErr.bailed (versionMismatchMsg p.version ver))
        else
          match dec.program (rest4.take len) with
          | Except.error e => Except.error (RecErr.bailed (decodeFailMsg e))
          | Except.ok prog =>
            match processPayload dec sv ver (rest4.drop len) with
            | Except.error e => Except.error e
            | Except.ok ps => Except.ok (prog :: ps)
    else Except.error RecErr.panicOOB
termination_by l => l.length
decreasing_by
  simp only [List.length_drop, List.length_cons]
  omega

/-- The reserved metadata identifier. -/
def wbindgenSectionName : String := "__wasm_bindgen_unstable"

/-- Does this section match the reserved metadata identifier? -/
def isBindgenSection : Section → Bool
  | Section.custom name _ => name = wbindgenSectionName
  | _ => false

/-- The enumeration loop of `extract_programs`: walk the sections from index
`i`, decode every reserved custom section's payload, and collect the decoded
programs together with the indices pushed onto `to_remove`. -/
def processSections (dec : Decoders) (sv ver : String) :
    Nat → List Section → Except RecErr (List Program × List Nat)
  | _, [] => Except.ok ([], [])
  | i, s :: rest =>
    match s with
    | Section.custom name payload =>
      if name = wbindgenSectionName then
        match processPayload dec sv ver payload with
        | Except.error e => Except.error e
        | Except.ok progs =>
          match processSections dec sv ver (i + 1) rest with
          | Except.error e => Except.error e
          | Except.ok (ps, idxs) => Except.ok (progs ++ ps, i :: idxs)
      else processSections dec sv ver (i + 1) rest
    | Section.importSec _ => processSections dec sv ver (i + 1) rest
    | Section.exportSec _ => processSections dec sv ver (i + 1) rest
    | Section.other _ => processSections dec sv ver (i + 1) rest

/-- `for i in to_remove.into_iter().rev() { module.sections_mut().remove(i) }`:
removal by index, highest index first. -/
def removeDescending (l : List Section) (idxs : List Nat) : List Section :=
  idxs.reverse.foldl (fun acc i => acc.eraseIdx i) l

/-- Outcome of `extract_programs` over the mutable module: success with the
decoded programs and the stripped module, a `bail!` error, or a panic.  The
error and panic outcomes carry the module so its final state is observable. -/
inductive ExtractResult
  | ok (programs : List Program) (m : Module)
  | err (msg : String) (m : Module)
  | panicked (m : Module)
deriving DecidableEq

/-- Did extraction return `Ok`? -/
def ExtractResult.isOk : ExtractResult → Bool
  | ExtractResult.ok _ _ => true
  | _ => false

/-- Did extraction return a `bail!` error? -/
def ExtractResult.isErr : ExtractResult → Bool
  | ExtractResult.err _ _ => true
  | _ => false

/-- Did extraction panic? -/
def ExtractResult.isPanicked : ExtractResult → Bool
  | ExtractResult.panicked _ => true
  | _ => false

/-- The module as left behind by extraction. -/
def ExtractResult.modOf : ExtractResult → Module
  | ExtractResult.ok _ m => m
  | ExtractResult.err _ m => m
  | ExtractResult.panicked m => m

/-- `extract_programs` from the source.  `sv` is the compiled-in
`shared::SCHEMA_VERSION` and `ver` is `shared::version()`, both constants of
the out-of-tree `wasm-bindgen-shared` crate, so parameters here.  The section
removal runs only after every payload decoded successfully, exactly as the
`to_remove` loop in the source runs after the enumeration loop. -/
def extract_programs (dec : Decoders) (sv ver : String) (m : Module) : ExtractResult :=
  match processSections dec sv ver 0 m.sections with
  | Except.error RecErr.panicOOB => ExtractResult.panicked m
  | Except.error (RecErr.bailed msg) => ExtractResult.err msg m
  | Except.ok (ps, idxs) => ExtractResult.ok ps ⟨removeDescending m.sections idxs⟩

/-- The 4-byte little-endian encoding of a record length, as the macro that
produces the custom section would write it. -/
def lenLE (n : Nat) : List Nat :=
  [n % 256, n / 256 % 256, n / 65536 % 256, n / 16777216 % 256]

/-- The declared length of the first record of a payload (0 if fewer than 4
bytes are present). -/
def declaredLen : List Nat → Nat
  | b0 :: b1 :: b2 :: b3 :: _ => b0 + b1 * 256 + b2 * 65536 + b3 * 16777216
  | _ => 0

/-- The payload of the first reserved-named custom section, if any. -/
def firstReservedPayload? (m : Module) : Option (List Nat) :=
  m.sections.findSome? fun s =>
    match s with
    | Section.custom name payload =>
      if name = wbindgenSectionName then some payload else none
    | _ => none

/-- The indices at which the reserved custom sections sit, counting from `i`:
the contents of `to_remove` on the success path. -/
def matchedIdxsFrom (i : Nat) : List Section → List Nat
  | [] => []
  | s :: rest =>
    if isBindgenSection s then i :: matchedIdxsFrom (i + 1) rest
    else matchedIdxsFrom (i + 1) rest

/-! ## Deployment Shim Builder: `generate_node_wasm_import` -/

/-- Insertion into a sorted duplicate-free list: the effect of
`BTreeSet::insert` on the iteration order.  Rust's `Ord` for `&str` and
Lean's `LinearOrder String` are both lexicographic. -/
def insertSorted {α : Type} [LinearOrder α] (x : α) : List α → List α
  | [] => [x]
  | y :: ys =>
    if x < y then x :: y :: ys
    else if x = y then y :: ys
    else y :: insertSorted x ys

/-- The `module()` names declared by the import section's entries, in
declaration order, with multiplicity. -/
def entryModules (m : Module) : List String :=
  match m.import_section with
  | some es => es.map ImportEntry.module
  | none => []

/-- The `BTreeSet` of imported module names built at the top of
`generate_node_wasm_import`, in iteration (sorted, deduplicated) order. -/
def importedModules (m : Module) : List String :=
  (entryModules m).foldl (fun acc x => insertSorted x acc) []

/-- The `field()` names of the export section's entries. -/
def exportFields (m : Module) : List String :=
  match m.export_section with
  | some es => es.map ExportEntry.field
  | none => []

/-- The ES-module branch's `import * as importN from '...';` lines. -/
def esmImportLines (names : List String) : String :=
  String.join (names.enum.map fun p =>
    "import * as import" ++ toString p.1 ++ " from \x27" ++ p.2 ++ "\x27;\n")

/-- The ES-module branch's header: locate the companion binary next to the
current module's own URL and read its bytes. -/
def esmHeader (fileName : String) : String :=
  "\n                import * as path from \x27path\x27;\n                import * as fs from \x27fs\x27;\n                import * as url from \x27url\x27;\n                import * as process from \x27process\x27;\n\n                let file = path.dirname(url.parse(import.meta.url).pathname);\n                if (process.platform === \x27win32\x27) \x7b\n                    file = file.substring(1);\n                \x7d\n                const bytes = fs.readFileSync(path.join(file, \x27" ++ fileName ++ "\x27));\n            "

/-- The classic (CommonJS) branch's header: `__dirname`-relative path and a
synchronous read of the companion binary's bytes. -/
def classicHeader (fileName : String) : String :=
  "\n                const path = require(\x27path\x27).join(__dirname, \x27" ++ fileName ++ "\x27);\n                const bytes = require(\x27fs\x27).readFileSync(path);\n            "

/-- The per-imported-module assignment lines into the imports table:
`imports['m'] = importN;` (ES) or `imports['m'] = require('m');` (classic). -/
def importAssignLines (experimental : Bool) (names : List String) : String :=
  String.join (names.enum.map fun p =>
    if experimental then
      "imports[\x27" ++ p.2 ++ "\x27] = import" ++ toString p.1 ++ ";\n"
    else
      "imports[\x27" ++ p.2 ++ "\x27] = require(\x27" ++ p.2 ++ "\x27);\n")

/-- Binary instantiation from the loaded bytes. -/
def instantiateBlock : String :=
  "\n                const wasmModule = new WebAssembly.Module(bytes);\n                const wasmInstance = new WebAssembly.Instance(wasmModule, imports);\n            "

/-- The ES-module branch's re-export of each top-level export. -/
def esmExportLines (names : List String) : String :=
  String.join (names.map fun name =>
    "export const " ++ name ++ " = wasmInstance.exports." ++ name ++ ";\n")

/-! ## Configuration and orchestrator -/

/-- The `Input` sum type: a filesystem path, raw bytes plus a logical name, a
pre-parsed module plus a logical name, or nothing yet. -/
inductive Input
  | path (p : String)
  | bytes (b : List Nat) (name : String)
  | module (m : Module) (name : String)
  | none

/-- The `Bindgen` configuration accumulator.  `weak_refs` is sourced from the
process environment at construction, so `Bindgen.new` takes it as input. -/
structure Bindgen where
  input : Input
  nodejs : Bool
  nodejs_experimental_modules : Bool
  browser : Bool
  no_modules : Bool
  no_modules_global : Option String
  debug : Bool
  typescript : Bool
  demangle : Bool
  keep_debug : Bool
  weak_refs : Bool

/-- `Bindgen::new()`; `weakRefs` stands for
`env::var("WASM_BINDGEN_WEAKREF").is_ok()`. -/
def Bindgen.new (weakRefs : Bool) : Bindgen :=
  { input := Input.none
    nodejs := false
    nodejs_experimental_modules := false
    browser := false
    no_modules := false
    no_modules_global := Option.none
    debug := false
    typescript := false
    demangle := true
    keep_debug := false
    weak_refs := weakRefs }

/-- `generate_node_wasm_import` from the source.  The source receives the
companion binary's `&Path` and uses only `path.file_name()`, passed here as
`fileName`. -/
def generate_node_wasm_import (b : Bindgen) (m : Module) (fileName : String) : String :=
  let imports := importedModules m
  let shim :=
    if b.nodejs_experimental_modules then esmImportLines imports ++ esmHeader fileName
    else classicHeader fileName
  let shim := shim ++ "let imports = \x7b\x7d;\n"
  let shim := shim ++ importAssignLines b.nodejs_experimental_modules imports
  let shim := shim ++ instantiateBlock
  let shim :=
    if b.nodejs_experimental_modules then shim ++ esmExportLines (exportFields m)
    else shim ++ "module.exports = wasmInstance.exports;\n"
  reset_indentation shim

/-- Everything `_generate` observes of the world: the filesystem, the binary
codec (`parity_wasm`), the JSON decoders, the `wasm-bindgen-shared` constants,
and the whole JS/TS Binding Generator.  All are outside this source file
(spec §1 collaborators; `mod js` is a sibling module not under review), so
they are inputs of the embedding. -/
structure Collab where
  decoders : Decoders
  schemaVersionConst : String
  versionConst : String
  readFile : String → Except String (List Nat)
  deserialize : List Nat → Except String Module
  fileStem : String → Option String
  jsGenerate : List Program → Module → Except String (String × String × Module)
  serialize : Module → Except String (List Nat)
  writeText : String → String → Except String Unit
  writeBytes : String → List Nat → Except String Unit

/-- Result of one `_generate` run. -/
inductive GenOutcome
  | ok
  | error (msg : String)
  | panicked
deriving DecidableEq

/-- The externally visible operations `_generate` performs, in order:
filesystem reads, filesystem writes, and the binding-generation pass in which
all descriptor resolution happens (`js::SubContext::generate`). -/
inductive Effect
  | fsRead (path : String)
  | fsWrite (path : String)
  | runBindingGeneration
deriving DecidableEq

/-- The typescript-declaration write step of `_generate`. -/
def writeTsStep (b : Bindgen) (c : Collab) (out_dir stem : String) (ts : String)
    (log : List Effect) : Option String × List Effect :=
  if b.typescript then
    match c.writeText (out_dir ++ "/" ++ stem ++ ".d.ts") ts with
    | Except.error _ =>
      (some ("failed to write `" ++ out_dir ++ "/" ++ stem ++ ".d.ts" ++ "`"),
        log ++ [Effect.fsWrite (out_dir ++ "/" ++ stem ++ ".d.ts")])
    | Except.ok _ => (Option.none, log ++ [Effect.fsWrite (out_dir ++ "/" ++ stem ++ ".d.ts")])
  else (Option.none, log)

/-- The node-shim write step of `_generate`. -/
def writeShimStep (b : Bindgen) (c : Collab) (out_dir stem ext : String) (m2 : Module)
    (log : List Effect) : Option String × List Effect :=
  if b.nodejs then
    match c.writeText (out_dir ++ "/" ++ stem ++ "_bg." ++ ext)
        (generate_node_wasm_import b m2 (stem ++ "_bg.wasm")) with
    | Except.error _ =>
      (some ("failed to write `" ++ out_dir ++ "/" ++ stem ++ "_bg." ++ ext ++ "`"),
        log ++ [Effect.fsWrite (out_dir ++ "/" ++ stem ++ "_bg." ++ ext)])
    | Except.ok _ => (Option.none, log ++ [Effect.fsWrite (out_dir ++ "/" ++ stem ++ "_bg." ++ ext)])
  else (Option.none, log)

/-- The tail of `_generate` after metadata extraction succeeded: run the
Binding Generator, write the JS (re-indented), the optional TS declarations,
the Node shim, and the re-serialized stripped binary. -/
def generatePipelineTail (b : Bindgen) (c : Collab) (out_dir stem : String)
    (programs : List Program) (m1 : Module) (log : List Effect) : GenOutcome × List Effect :=
  let log := log ++ [Effect.runBindingGeneration]
  match c.jsGenerate programs m1 with
  | Except.error e => (GenOutcome.error e, log)
  | Except.ok (js, ts, m2) =>
    let ext := if b.nodejs_experimental_modules then "mjs" else "js"
    let js_path := out_dir ++ "/" ++ stem ++ "." ++ ext
    let log := log ++ [Effect.fsWrite js_path]
    match c.writeText js_path (reset_indentation js) with
    | Except.error _ => (GenOutcome.error ("failed to write `" ++ js_path ++ "`"), log)
    | Except.ok _ =>
      match writeTsStep b c out_dir stem ts log with
      | (some e, log) => (GenOutcome.error e, log)
      | (Option.none, log) =>
        match writeShimStep b c out_dir stem ext m2 log with
        | (some e, log) => (GenOutcome.error e, log)
        | (Option.none, log) =>
          match c.serialize m2 with
          | Except.error e => (GenOutcome.error e, log)
          | Except.ok bytes =>
            let wasm_path := out_dir ++ "/" ++ stem ++ "_bg.wasm"
            let log := log ++ [Effect.fsWrite wasm_path]
            match c.writeBytes wasm_path bytes with
            | Except.error _ => (GenOutcome.error ("failed to write `" ++ wasm_path ++ "`"), log)
            | Except.ok _ => (GenOutcome.ok, log)

/-- `_generate` after input resolution: extract the metadata (context-wrapped
on failure) and run the pipeline tail. -/
def generateAfterInput (b : Bindgen) (c : Collab) (out_dir stem : String) (m : Module)
    (log : List Effect) : GenOutcome × List Effect :=
  match extract_programs c.decoders c.schemaVersionConst c.versionConst m with
  | ExtractResult.panicked _ => (GenOutcome.panicked, log)
  | ExtractResult.err msg _ =>
    (GenOutcome.error ("failed to extract wasm-bindgen custom sections: " ++ msg), log)
  | ExtractResult.ok programs m1 => generatePipelineTail b c out_dir stem programs m1 log

/-- `Bindgen::_generate` from the source: resolve the `Input` sum type (the
`Input::Module` branch `mem::replace`s the stored module, which does not
affect the outcome), then run the pipeline.  The effect log records the reads,
writes and the binding-generation pass actually performed. -/
def Bindgen._generate (b : Bindgen) (c : Collab) (out_dir : String) : GenOutcome × List Effect :=
  match b.input with
  | Input.none => (GenOutcome.error "must have an input by now", [])
  | Input.module m name => generateAfterInput b c out_dir name m []
  | Input.bytes bs name =>
    match c.deserialize bs with
    | Except.error _ => (GenOutcome.error "failed to parse input file as wasm", [])
    | Except.ok m => generateAfterInput b c out_dir name m []
  | Input.path p =>
    match c.readFile p with
    | Except.error _ => (GenOutcome.error ("failed to read `" ++ p ++ "`"), [Effect.fsRead p])
    | Except.ok contents =>
      match c.deserialize contents with
      | Except.error _ =>
        (GenOutcome.error "failed to parse input file as wasm", [Effect.fsRead p])
      | Except.ok m =>
        match c.fileStem p with
        | Option.none => (GenOutcome.panicked, [Effect.fsRead p])
        | some stem => generateAfterInput b c out_dir stem m [Effect.fsRead p]

/-! ## Concrete fixtures for witnesses -/

/-- A concrete decoder pair: the byte string `[9]` decodes as a record with
schema version `"0"` and free-text version `"0.0.1"`; everything else fails
to decode. -/
def testDecoders : Decoders :=
  ⟨fun bs => if bs = [9] then Except.ok ⟨"0", "0.0.1"⟩ else Except.error "invalid data",
   fun _ => Except.error "invalid data"⟩

/-- A module whose reserved section declares record length 5 with 0 payload
bytes remaining after the prefix. -/
def testModuleBadLen : Module :=
  ⟨[Section.custom wbindgenSectionName [5, 0, 0, 0]]⟩

/-- A module whose reserved section holds one well-framed record (`[9]`,
length 1) that decodes with schema version `"0"`. -/
def testModuleMismatch : Module :=
  ⟨[Section.custom wbindgenSectionName [1, 0, 0, 0, 9]]⟩

/-- A module with one reserved section with an empty payload plus one other
section. -/
def testModuleEmptyPayload : Module :=
  ⟨[Section.custom wbindgenSectionName [], Section.other 7]⟩

/-- A module whose reserved section has a 1-byte payload: the loop runs and
indexes `payload[1]` out of bounds. -/
def testModuleShort : Module :=
  ⟨[Section.custom wbindgenSectionName [1]]⟩

/-- A module importing exactly the module name `env`. -/
def testModuleEnv : Module :=
  ⟨[Section.importSec [⟨"env", "f"⟩]]⟩

/-- A module importing `b`, `a`, `b` in that order. -/
def testModuleImportsBAB : Module :=
  ⟨[Section.importSec [⟨"b", "x"⟩, ⟨"a", "y"⟩, ⟨"b", "z"⟩]]⟩

/-- A module importing `a`, `b` in that order. -/
def testModuleImportsAB : Module :=
  ⟨[Section.importSec [⟨"a", "p"⟩, ⟨"b", "q"⟩]]⟩

/-- A concrete collaborator bundle. -/
def testCollab : Collab :=
  { decoders := testDecoders
    schemaVersionConst := "1"
    versionConst := "0.2"
    readFile := fun _ => Except.error "no fs"
    deserialize := fun _ => Except.error "bad wasm"
    fileStem := fun _ => Option.none
    jsGenerate := fun _ _ => Except.error "no js"
    serialize := fun _ => Except.error "no ser"
    writeText := fun _ _ => Except.ok ()
    writeBytes := fun _ _ => Except.ok () }

/-- A `Bindgen` whose input is the pre-parsed mismatching module. -/
def testBindgenMismatch : Bindgen :=
  { Bindgen.new false with input := Input.module testModuleMismatch "m" }

/-! ## Formatter lemmas -/

theorem noNL_linesCore : ∀ {cs : List Char} {l : List Char}, l ∈ linesCore cs → '\n' ∉ l := by
  intro cs
  induction cs with
  | nil => intro l h; simp [linesCore] at h
  | cons c cs ih =>
    intro l hl
    by_cases hc : c = '\n'
    · rw [linesCore, if_pos hc] at hl
      rcases List.mem_cons.mp hl with h | h
      · subst h; simp
      · exact ih h
    · rw [linesCore, if_neg hc] at hl
      cases hrec : linesCore cs with
      | nil =>
        rw [hrec] at hl
        have : l = [c] := by simpa using hl
        subst this
        simp [Ne.symm hc]
      | cons l0 ls0 =>
        rw [hrec] at hl
        rcases List.mem_cons.mp hl with h | h
        · subst h
          intro hmem
          rcases List.mem_cons.mp hmem with h' | h'
          · exact hc h'.symm
          · exact ih (hrec ▸ List.mem_cons_self l0 ls0) h'
        · exact ih (hrec ▸ List.mem_cons_of_mem l0 h)

theorem stripTrailCR_subset (l : List Char) : stripTrailCR l ⊆ l := by
  unfold stripTrailCR
  split
  · exact List.dropLast_subset l
  · exact fun _ h => h

theorem noNL_rustLinesL (cs : List Char) : ∀ l ∈ rustLinesL cs, '\n' ∉ l := by
  intro l hl
  rcases List.mem_map.mp hl with ⟨l', hl', rfl⟩
  intro hmem
  exact noNL_linesCore hl' (stripTrailCR_subset l' hmem)

theorem linesCore_append {l : List Char} (rest : List Char) (h : '\n' ∉ l) :
    linesCore (l ++ '\n' :: rest) = l :: linesCore rest := by
  induction l with
  | nil => simp [linesCore]
  | cons c l ih =>
    have hc : ¬ c = '\n' := fun hc => h (hc ▸ List.mem_cons_self c l)
    have hl : '\n' ∉ l := fun hm => h (List.mem_cons_of_mem c hm)
    rw [List.cons_append, linesCore, if_neg hc, ih hl]

theorem linesCore_joinNL : ∀ {es : List (List Char)}, (∀ e ∈ es, '\n' ∉ e) →
    linesCore (joinNL es) = es := by
  intro es
  induction es with
  | nil => intro _; rfl
  | cons e es ih =>
    intro h
    have : joinNL (e :: es) = e ++ '\n' :: joinNL es := by
      simp [joinNL]
    rw [this, linesCore_append _ (h e (List.mem_cons_self e es)),
      ih (fun x hx => h x (List.mem_cons_of_mem e hx))]

theorem dropWhile_head?_false {p : Char → Bool} : ∀ {l : List Char} {c : Char},
    (l.dropWhile p).head? = some c → p c = false := by
  intro l
  induction l with
  | nil => intro c h; simp [List.dropWhile] at h
  | cons a l ih =>
    intro c h
    by_cases hp : p a
    · rw [List.dropWhile_cons, if_pos hp] at h
      exact ih h
    · rw [List.dropWhile_cons, if_neg hp] at h
      have : a = c := by simpa using h
      subst this
      simpa using hp

theorem dropWhile_eq_self {p : Char → Bool} {l : List Char}
    (h : ∀ c, l.head? = some c → p c = false) : l.dropWhile p = l := by
  cases l with
  | nil => rfl
  | cons a l =>
    have : p a = false := h a rfl
    simp [List.dropWhile_cons, this]

theorem dropWhile_idem (p : Char → Bool) (l : List Char) :
    (l.dropWhile p).dropWhile p = l.dropWhile p := by
  apply dropWhile_eq_self
  intro c hc
  exact dropWhile_head?_false hc

theorem dropTrailing_idem (l : List Char) : dropTrailing (dropTrailing l) = dropTrailing l := by
  unfold dropTrailing
  rw [List.reverse_reverse, dropWhile_idem]

theorem dropTrailing_pre (l : List Char) : ∃ t, dropTrailing l ++ t = l := by
  rcases List.dropWhile_suffix (l := l.reverse) Char.isWhitespace with ⟨t, ht⟩
  refine ⟨t.reverse, ?_⟩
  have := congrArg List.reverse ht
  rwa [List.reverse_append, List.reverse_reverse] at this

theorem head?_append_of_ne_nil {x : List Char} (t : List Char) (h : x ≠ []) :
    (x ++ t).head? = x.head? := by
  cases x with
  | nil => exact absurd rfl h
  | cons a x => rfl

theorem getLast?_append_of_ne_nil (x : List Char) {t : List Char} (h : t ≠ []) :
    (x ++ t).getLast? = t.getLast? := by
  rw [← List.head?_reverse, ← List.head?_reverse, List.reverse_append]
  exact head?_append_of_ne_nil _ (by simpa using h)

theorem trimL_idem (l : List Char) : trimL (trimL l) = trimL l := by
  unfold trimL
  by_cases ht : dropTrailing (dropLeading l) = []
  · rw [ht]; rfl
  · rcases dropTrailing_pre (dropLeading l) with ⟨t2, hpre⟩
    have hhd : (dropTrailing (dropLeading l)).head? = (dropLeading l).head? := by
      conv_rhs => rw [← hpre]
      exact (head?_append_of_ne_nil _ ht).symm
    have hleading : dropLeading (dropTrailing (dropLeading l)) = dropTrailing (dropLeading l) := by
      apply dropWhile_eq_self
      intro c hc
      exact dropWhile_head?_false (p := Char.isWhitespace) (l := l) (hhd ▸ hc)
    rw [hleading, dropTrailing_idem]

theorem dropLeading_replicate (k : Nat) (l : List Char) :
    dropLeading (List.replicate k ' ' ++ l) = dropLeading l := by
  induction k with
  | zero => rfl
  | succ k ih =>
    rw [List.replicate_succ, List.cons_append]
    unfold dropLeading at *
    rw [List.dropWhile_cons, if_pos (by decide)]
    exact ih

theorem trimL_replicate (k : Nat) (l : List Char) :
    trimL (List.replicate k ' ' ++ l) = trimL l := by
  unfold trimL
  rw [dropLeading_replicate]

theorem getLast?_trimL_not_ws {l : List Char} {c : Char}
    (h : (trimL l).getLast? = some c) : c.isWhitespace = false := by
  unfold trimL dropTrailing at h
  rw [← List.head?_reverse, List.reverse_reverse] at h
  exact dropWhile_head?_false h

theorem mem_trimL {a : Char} {l : List Char} (h : a ∈ trimL l) : a ∈ l := by
  unfold trimL dropTrailing dropLeading at h
  rw [List.mem_reverse] at h
  have h1 := (List.dropWhile_sublist _ (l := (List.dropWhile Char.isWhitespace l).reverse)).subset h
  rw [List.mem_reverse] at h1
  exact (List.dropWhile_sublist _ (l := l)).subset h1

theorem trimL_emitFor (i : Nat) (raw : List Char) :
    trimL (emitFor i (trimL raw)) = trimL raw := by
  unfold emitFor
  by_cases he : (trimL raw).isEmpty
  · rw [if_pos he]
    have : trimL raw = [] := by simpa [List.isEmpty_iff] using he
    rw [this]; rfl
  · rw [if_neg he, trimL_replicate, trimL_idem]

theorem formatLines_trim : ∀ (ls : List (List Char)) (n : Nat),
    (formatLines n ls).map trimL = ls.map trimL := by
  intro ls
  induction ls with
  | nil => intro n; rfl
  | cons raw rest ih =>
    intro n
    rw [formatLines, List.map_cons, List.map_cons, trimL_emitFor, ih]

theorem formatLines_idem : ∀ (ls : List (List Char)) (n : Nat),
    formatLines n (formatLines n ls) = formatLines n ls := by
  intro ls
  induction ls with
  | nil => intro n; rfl
  | cons raw rest ih =>
    intro n
    rw [formatLines, formatLines, trimL_emitFor, ih]

theorem noNL_formatLines {ls : List (List Char)} (h : ∀ l ∈ ls, '\n' ∉ l) :
    ∀ (n : Nat), ∀ e ∈ formatLines n ls, '\n' ∉ e := by
  induction ls with
  | nil => intro n e he; simp [formatLines] at he
  | cons raw rest ih =>
    intro n e he
    rw [formatLines] at he
    rcases List.mem_cons.mp he with h' | h'
    · subst h'
      unfold emitFor
      split
      · simp
      · intro hmem
        rcases List.mem_append.mp hmem with hm | hm
        · have := List.eq_of_mem_replicate hm
          simp at this
        · exact h raw (List.mem_cons_self raw rest) (mem_trimL hm)
    · exact ih (fun l hl => h l (List.mem_cons_of_mem raw hl)) _ e h'

theorem stripCR_formatLines : ∀ (ls : List (List Char)) (n : Nat),
    ∀ e ∈ formatLines n ls, stripTrailCR e = e := by
  intro ls
  induction ls with
  | nil => intro n e he; simp [formatLines] at he
  | cons raw rest ih =>
    intro n e he
    rw [formatLines] at he
    rcases List.mem_cons.mp he with h' | h'
    · subst h'
      unfold emitFor
      split
      · rfl
      · rename_i hne
        unfold stripTrailCR
        rw [if_neg]
        intro hlast
        have htne : trimL raw ≠ [] := by
          intro hnil
          exact hne (by simp [hnil])
        rw [getLast?_append_of_ne_nil _ htne] at hlast
        have := getLast?_trimL_not_ws hlast
        simp at this
    · exact ih _ e h'

theorem map_eq_self_of {α : Type} {f : α → α} : ∀ {l : List α},
    (∀ a ∈ l, f a = a) → l.map f = l := by
  intro l
  induction l with
  | nil => intro _; rfl
  | cons a l ih =>
    intro h
    rw [List.map_cons, h a (List.mem_cons_self a l),
      ih (fun x hx => h x (List.mem_cons_of_mem a hx))]

theorem rustLinesL_joinNL_formatLines {ls : List (List Char)} (n : Nat)
    (h : ∀ l ∈ ls, '\n' ∉ l) :
    rustLinesL (joinNL (formatLines n ls)) = formatLines n ls := by
  unfold rustLinesL
  rw [linesCore_joinNL (noNL_formatLines h n)]
  exact map_eq_self_of (stripCR_formatLines ls n)

/-! ## Extractor lemmas -/

theorem processSections_idxs (dec : Decoders) (sv ver : String) :
    ∀ (l : List Section) (i : Nat) (ps : List Program) (idxs : List Nat),
      processSections dec sv ver i l = Except.ok (ps, idxs) → idxs = matchedIdxsFrom i l := by
  intro l
  induction l with
  | nil =>
    intro i ps idxs h
    rw [processSections] at h
    simp at h
    simp [matchedIdxsFrom, h.2.symm]
  | cons s rest ih =>
    intro i ps idxs h
    cases s with
    | custom name payload =>
      by_cases hname : name = wbindgenSectionName
      · rw [processSections, if_pos hname] at h
        cases hpp : processPayload dec sv ver payload with
        | error e => rw [hpp] at h; simp at h
        | ok progs =>
          rw [hpp] at h
          cases hps : processSections dec sv ver (i + 1) rest with
          | error e => rw [hps] at h; simp at h
          | ok pr =>
            obtain ⟨ps', idxs'⟩ := pr
            rw [hps] at h
            simp at h
            rw [← h.2, matchedIdxsFrom]
            rw [if_pos (show isBindgenSection (Section.custom name payload) = true by
              simp [isBindgenSection, hname])]
            rw [ih (i + 1) ps' idxs' hps]
      · rw [processSections, if_neg hname] at h
        rw [matchedIdxsFrom,
          if_neg (show ¬ isBindgenSection (Section.custom name payload) = true by
            simp [isBindgenSection, hname])]
        exact ih (i + 1) ps idxs h
    | importSec es =>
      rw [processSections] at h
      rw [matchedIdxsFrom, if_neg (by simp [isBindgenSection])]
      exact ih (i + 1) ps idxs h
    | exportSec es =>
      rw [processSections] at h
      rw [matchedIdxsFrom, if_neg (by simp [isBindgenSection])]
      exact ih (i + 1) ps idxs h
    | other tag =>
      rw [processSections] at h
      rw [matchedIdxsFrom, if_neg (by simp [isBindgenSection])]
      exact ih (i + 1) ps idxs h

theorem matchedIdxsFrom_succ : ∀ (l : List Section) (i : Nat),
    matchedIdxsFrom (i + 1) l = (matchedIdxsFrom i l).map (· + 1) := by
  intro l
  induction l with
  | nil => intro i; rfl
  | cons s rest ih =>
    intro i
    by_cases hb : isBindgenSection s
    · rw [matchedIdxsFrom, matchedIdxsFrom, if_pos hb, if_pos hb, List.map_cons, ih (i + 1)]
    · rw [matchedIdxsFrom, matchedIdxsFrom, if_neg hb, if_neg hb, ih (i + 1)]

theorem foldl_eraseIdx_map_succ : ∀ (js : List Nat) (l : List Section) (s : Section),
    List.foldl (fun acc i => acc.eraseIdx i) (s :: l) (js.map (· + 1)) =
      s :: List.foldl (fun acc i => acc.eraseIdx i) l js := by
  intro js
  induction js with
  | nil => intro l s; rfl
  | cons j js ih =>
    intro l s
    rw [List.map_cons, List.foldl_cons, List.foldl_cons]
    exact ih (l.eraseIdx j) s

theorem removeDescending_matched : ∀ (l : List Section),
    removeDescending l (matchedIdxsFrom 0 l) = l.filter (fun s => !isBindgenSection s) := by
  intro l
  induction l with
  | nil => rfl
  | cons s rest ih =>
    by_cases hb : isBindgenSection s
    · rw [matchedIdxsFrom, if_pos hb, matchedIdxsFrom_succ]
      unfold removeDescending
      rw [List.reverse_cons, List.foldl_append,
        show ((matchedIdxsFrom 0 rest).map (· + 1)).reverse =
          (matchedIdxsFrom 0 rest).reverse.map (· + 1) from (List.map_reverse _ _).symm,
        foldl_eraseIdx_map_succ, List.foldl_cons, List.foldl_nil]
      show removeDescending rest (matchedIdxsFrom 0 rest) = _
      rw [ih]
      simp [List.filter_cons, hb]
    · rw [matchedIdxsFrom, if_neg hb, matchedIdxsFrom_succ]
      unfold removeDescending
      rw [show ((matchedIdxsFrom 0 rest).map (· + 1)).reverse =
          (matchedIdxsFrom 0 rest).reverse.map (· + 1) from (List.map_reverse _ _).symm,
        foldl_eraseIdx_map_succ]
      show s :: removeDescending rest (matchedIdxsFrom 0 rest) = _
      rw [ih]
      simp [List.filter_cons, hb]

theorem processPayload_badLen (dec : Decoders) (sv ver : String) :
    ∀ (payload : List Nat), 4 ≤ payload.length → payload.length - 4 < declaredLen payload →
      processPayload dec sv ver payload = Except.error RecErr.panicOOB := by
  intro payload h4 hbad
  match payload, h4 with
  | b0 :: b1 :: b2 :: b3 :: rest4, _ =>
    rw [declaredLen] at hbad
    simp only [List.length_cons] at hbad
    rw [processPayload, if_neg (by omega)]

theorem processSections_first_err (dec : Decoders) (sv ver : String) {e : RecErr} :
    ∀ (l : List Section) (i : Nat) (payload : List Nat),
      (l.findSome? fun s =>
        match s with
        | Section.custom name payload =>
          if name = wbindgenSectionName then some payload else none
        | _ => none) = some payload →
      processPayload dec sv ver payload = Except.error e →
      processSections dec sv ver i l = Except.error e := by
  intro l
  induction l with
  | nil => intro i payload h; simp [List.findSome?] at h
  | cons s rest ih =>
    intro i payload hfind hpp
    cases s with
    | custom name pl =>
      by_cases hname : name = wbindgenSectionName
      · rw [List.findSome?_cons] at hfind
        simp only [hname, if_pos rfl] at hfind
        have : pl = payload := by simpa using hfind
        subst this
        rw [processSections, if_pos hname, hpp]
      · rw [List.findSome?_cons] at hfind
        simp only [hname, if_neg (fun h => hname h)] at hfind
        rw [processSections, if_neg hname]
        exact ih (i + 1) payload (by simpa using hfind) hpp
    | importSec es =>
      rw [List.findSome?_cons] at hfind
      rw [processSections]
      exact ih (i + 1) payload (by simpa using hfind) hpp
    | exportSec es =>
      rw [List.findSome?_cons] at hfind
      rw [processSections]
      exact ih (i + 1) payload (by simpa using hfind) hpp
    | other tag =>
      rw [List.findSome?_cons] at hfind
      rw [processSections]
      exact ih (i + 1) payload (by simpa using hfind) hpp

theorem processPayload_versionGate (dec : Decoders) (sv ver : String)
    (bytes rest : List Nat) (p : ProgramOnlySchema)
    (hlen : bytes.length < 4294967296)
    (hdec : dec.programOnly bytes = Except.ok p)
    (hne : p.schema_version ≠ sv) :
    processPayload dec sv ver (lenLE bytes.length ++ (bytes ++ rest)) =
      Except.error (RecErr.bailed (versionMismatchMsg p.version ver)) := by
  have hcons : lenLE bytes.length ++ (bytes ++ rest) =
      bytes.length % 256 :: (bytes.length / 256 % 256) :: (bytes.length / 65536 % 256) ::
        (bytes.length / 16777216 % 256) :: (bytes ++ rest) := rfl
  have hsum : bytes.length % 256 + bytes.length / 256 % 256 * 256 +
      bytes.length / 65536 % 256 * 65536 + bytes.length / 16777216 % 256 * 16777216 =
      bytes.length := by omega
  rw [hcons, processPayload, hsum, if_pos (by simp), List.take_left, hdec]
  exact if_pos hne

theorem processPayload_nil (dec : Decoders) (sv ver : String) :
    processPayload dec sv ver [] = Except.ok [] := by
  rw [processPayload]

theorem processPayload_one (dec : Decoders) (sv ver : String) (b : Nat) :
    processPayload dec sv ver [b] = Except.error RecErr.panicOOB := by
  rw [processPayload]

/-! ## Sorted-insertion lemmas -/

theorem mem_insertSorted {α : Type} [LinearOrder α] (x a : α) :
    ∀ (l : List α), a ∈ insertSorted x l ↔ a = x ∨ a ∈ l := by
  intro l
  induction l with
  | nil => simp [insertSorted]
  | cons y ys ih =>
    rw [insertSorted]
    by_cases h1 : x < y
    · rw [if_pos h1]; simp [List.mem_cons]
    · rw [if_neg h1]
      by_cases h2 : x = y
      · rw [if_pos h2]; subst h2; simp [List.mem_cons]
      · rw [if_neg h2]; simp [List.mem_cons, ih]; tauto

theorem sorted_insertSorted {α : Type} [LinearOrder α] (x : α) :
    ∀ (l : List α), l.Sorted (· < ·) → (insertSorted x l).Sorted (· < ·) := by
  intro l
  induction l with
  | nil => intro _; simp [insertSorted]
  | cons y ys ih =>
    intro hs
    rw [List.sorted_cons] at hs
    obtain ⟨hy, hys⟩ := hs
    rw [insertSorted]
    by_cases h1 : x < y
    · rw [if_pos h1, List.sorted_cons]
      refine ⟨?_, List.sorted_cons.mpr ⟨hy, hys⟩⟩
      intro b hb
      rcases List.mem_cons.mp hb with rfl | hb
      · exact h1
      · exact h1.trans (hy b hb)
    · rw [if_neg h1]
      by_cases h2 : x = y
      · rw [if_pos h2]; exact List.sorted_cons.mpr ⟨hy, hys⟩
      · rw [if_neg h2, List.sorted_cons]
        have hyx : y < x := lt_of_le_of_ne (le_of_not_lt h1) (Ne.symm h2)
        refine ⟨?_, ih hys⟩
        intro b hb
        rcases (mem_insertSorted x b ys).mp hb with rfl | hb
        · exact hyx
        · exact hy b hb

theorem sorted_foldl_insert {α : Type} [LinearOrder α] :
    ∀ (xs acc : List α), acc.Sorted (· < ·) →
      (xs.foldl (fun acc x => insertSorted x acc) acc).Sorted (· < ·) := by
  intro xs
  induction xs with
  | nil => intro acc h; exact h
  | cons x xs ih => intro acc h; exact ih _ (sorted_insertSorted x acc h)

theorem mem_foldl_insert {α : Type} [LinearOrder α] (a : α) :
    ∀ (xs acc : List α),
      a ∈ xs.foldl (fun acc x => insertSorted x acc) acc ↔ a ∈ xs ∨ a ∈ acc := by
  intro xs
  induction xs with
  | nil => intro acc; simp
  | cons x xs ih =>
    intro acc
    rw [List.foldl_cons, ih, mem_insertSorted]
    simp [List.mem_cons]
    tauto

theorem sorted_mem_ext {α : Type} [LinearOrder α] :
    ∀ (l1 l2 : List α), l1.Sorted (· < ·) → l2.Sorted (· < ·) →
      (∀ x, x ∈ l1 ↔ x ∈ l2) → l1 = l2 := by
  intro l1
  induction l1 with
  | nil =>
    intro l2 _ _ hmem
    cases l2 with
    | nil => rfl
    | cons b l2 => exact absurd ((hmem b).mpr (List.mem_cons_self b l2)) (List.not_mem_nil b)
  | cons a l1 ih =>
    intro l2 h1 h2 hmem
    cases l2 with
    | nil => exact absurd ((hmem a).mp (List.mem_cons_self a l1)) (List.not_mem_nil a)
    | cons b l2 =>
      rw [List.sorted_cons] at h1 h2
      obtain ⟨ha, h1⟩ := h1
      obtain ⟨hb, h2⟩ := h2
      have hab : a = b := by
        rcases List.mem_cons.mp ((hmem a).mp (List.mem_cons_self a l1)) with h | h
        · exact h
        · rcases List.mem_cons.mp ((hmem b).mpr (List.mem_cons_self b l2)) with h' | h'
          · exact h'.symm
          · exact absurd (lt_trans (hb a h) (ha b h')) (lt_irrefl b)
      subst hab
      congr 1
      apply ih l2 h1 h2
      intro x
      constructor
      · intro hx
        rcases List.mem_cons.mp ((hmem x).mp (List.mem_cons_of_mem a hx)) with h | h
        · subst h; exact absurd (ha x hx) (lt_irrefl x)
        · exact h
      · intro hx
        rcases List.mem_cons.mp ((hmem x).mpr (List.mem_cons_of_mem a hx)) with h | h
        · subst h; exact absurd (hb x hx) (lt_irrefl x)
        · exact h

/-! ## Claims -/

/-- C4: the Source Formatter is idempotent: applying `reset_indentation` to
its own output yields that same output, for every input string. -/
theorem c4_formatter_idempotent (s : String) :
    reset_indentation (reset_indentation s) = reset_indentation s := by
  unfold reset_indentation
  rw [show (String.mk (joinNL (formatLines 0 (rustLinesL s.data)))).data =
      joinNL (formatLines 0 (rustLinesL s.data)) from rfl]
  rw [rustLinesL_joinNL_formatLines 0 (noNL_rustLinesL s.data), formatLines_idem]

/-- C9: the Source Formatter is content-preserving (and, being a total Lean
function whose decrement is `Nat` subtraction — the source's saturating
subtraction — it cannot panic or underflow): trimming each output line gives
exactly the trimmed input lines. -/
theorem c9_formatter_preserves_content (s : String) :
    (rustLines (reset_indentation s)).map trimS = (rustLines s).map trimS := by
  unfold rustLines reset_indentation
  rw [show (String.mk (joinNL (formatLines 0 (rustLinesL s.data)))).data =
      joinNL (formatLines 0 (rustLinesL s.data)) from rfl]
  rw [rustLinesL_joinNL_formatLines 0 (noNL_rustLinesL s.data)]
  have key : ∀ X : List (List Char),
      (X.map String.mk).map trimS = (X.map trimL).map String.mk := by
    intro X
    rw [List.map_map, List.map_map]
    rfl
  rw [key, key, formatLines_trim]

/-- C6: the three-line input `"a {\nb\n}"` formats to `"a {\n    b\n}\n"`:
the middle line is indented four spaces, both braces sit at column zero. -/
theorem c6_formatter_concrete :
    reset_indentation "a \x7b\nb\n\x7d" = "a \x7b\n    b\n\x7d\n" := by
  decide

/-- C1 (counterexample): a reserved section declaring record length 5 with 0
payload bytes after the prefix makes `extract_programs` hit the out-of-bounds
`split_at` — a panic, not the decode error the claim asserts. -/
theorem c1_malformed_length_counterexample :
    (extract_programs testDecoders "1" "0.2" testModuleBadLen).isPanicked = true
    ∧ (extract_programs testDecoders "1" "0.2" testModuleBadLen).isErr = false := by
  have hpp := processPayload_badLen testDecoders "1" "0.2" [5, 0, 0, 0] (by decide) (by decide)
  have hps : processSections testDecoders "1" "0.2" 0 testModuleBadLen.sections =
      Except.error RecErr.panicOOB := by
    show processSections testDecoders "1" "0.2" 0
      [Section.custom wbindgenSectionName [5, 0, 0, 0]] = _
    rw [processSections, if_pos rfl, hpp]
  have hex : extract_programs testDecoders "1" "0.2" testModuleBadLen =
      ExtractResult.panicked testModuleBadLen := by
    unfold extract_programs
    rw [hps]
  rw [hex]
  exact ⟨rfl, rfl⟩

/-- C1 (amended): when the first reserved-named custom section's payload
declares a first-record length exceeding the bytes remaining after the 4-byte
prefix, `extract_programs` panics (the out-of-bounds `split_at`), leaving the
module unchanged; it does not return a decode error. -/
theorem c1_malformed_length_panics (dec : Decoders) (sv ver : String) (m : Module)
    (payload : List Nat)
    (hfirst : firstReservedPayload? m = some payload)
    (h4 : 4 ≤ payload.length)
    (hover : payload.length - 4 < declaredLen payload) :
    extract_programs dec sv ver m = ExtractResult.panicked m := by
  have hpp := processPayload_badLen dec sv ver payload h4 hover
  have hps := processSections_first_err dec sv ver m.sections 0 payload hfirst hpp
  unfold extract_programs
  rw [hps]

/-- C1 (witness): the amended theorem applied to the concrete module with
payload `[5, 0, 0, 0]`. -/
theorem c1_malformed_length_panics_witness :
    firstReservedPayload? testModuleBadLen = some [5, 0, 0, 0]
    ∧ 4 ≤ ([5, 0, 0, 0] : List Nat).length
    ∧ ([5, 0, 0, 0] : List Nat).length - 4 < declaredLen [5, 0, 0, 0]
    ∧ extract_programs testDecoders "1" "0.2" testModuleBadLen =
        ExtractResult.panicked testModuleBadLen :=
  ⟨by decide, by decide, by decide,
    c1_malformed_length_panics testDecoders "1" "0.2" testModuleBadLen [5, 0, 0, 0]
      (by decide) (by decide) (by decide)⟩

/-- C8: `extract_programs` is atomic on error: whenever it does not return
`Ok` (a `bail!` or a panic), the module's section list is exactly as it was on
entry — sections are removed only after every record decoded successfully. -/
theorem c8_extract_atomic (dec : Decoders) (sv ver : String) (m : Module)
    (h : (extract_programs dec sv ver m).isOk = false) :
    (extract_programs dec sv ver m).modOf = m := by
  unfold extract_programs at h ⊢
  cases hps : processSections dec sv ver 0 m.sections with
  | error e =>
    cases e with
    | panicOOB => rfl
    | bailed msg => rfl
  | ok pr =>
    obtain ⟨ps, idxs⟩ := pr
    rw [hps] at h
    simp [ExtractResult.isOk] at h

/-- C8 (witness): the theorem applied to the module whose reserved section
has the 1-byte payload `[1]` (the loop indexes `payload[1]` out of bounds, so
extraction does not return `Ok`). -/
theorem c8_extract_atomic_witness :
    (extract_programs testDecoders "1" "0.2" testModuleShort).isOk = false
    ∧ (extract_programs testDecoders "1" "0.2" testModuleShort).modOf = testModuleShort := by
  have hps : processSections testDecoders "1" "0.2" 0 testModuleShort.sections =
      Except.error RecErr.panicOOB := by
    show processSections testDecoders "1" "0.2" 0
      [Section.custom wbindgenSectionName [1]] = _
    rw [processSections, if_pos rfl, processPayload_one]
  have h : (extract_programs testDecoders "1" "0.2" testModuleShort).isOk = false := by
    unfold extract_programs
    rw [hps]
    rfl
  exact ⟨h, c8_extract_atomic testDecoders "1" "0.2" testModuleShort h⟩

/-- C3: on success `extract_programs` leaves zero reserved-named custom
sections in the module, and the surviving sections are exactly the
non-reserved ones in their original relative order (the descending-index
removal equals a filter). -/
theorem c3_strip_sections (dec : Decoders) (sv ver : String) (m : Module)
    (ps : List Program) (m' : Module)
    (h : extract_programs dec sv ver m = ExtractResult.ok ps m') :
    (∀ s ∈ m'.sections, isBindgenSection s = false)
    ∧ m'.sections = m.sections.filter (fun s => !isBindgenSection s) := by
  unfold extract_programs at h
  cases hps : processSections dec sv ver 0 m.sections with
  | error e =>
    rw [hps] at h
    cases e <;> simp at h
  | ok pr =>
    obtain ⟨ps0, idxs⟩ := pr
    rw [hps] at h
    simp at h
    have hsec : m'.sections = removeDescending m.sections idxs := by
      rw [← h.2]
    have hidx : idxs = matchedIdxsFrom 0 m.sections :=
      processSections_idxs dec sv ver m.sections 0 ps0 idxs hps
    have hfilter : m'.sections = m.sections.filter (fun s => !isBindgenSection s) := by
      rw [hsec, hidx, removeDescending_matched]
    refine ⟨?_, hfilter⟩
    intro s hs
    rw [hfilter] at hs
    have := List.of_mem_filter hs
    simpa using this

/-- C3 (witness): the theorem applied to a module with one reserved section
(empty payload) before one other section; extraction strips exactly the
reserved one. -/
theorem c3_strip_sections_witness :
    extract_programs testDecoders "1" "0.2" testModuleEmptyPayload =
      ExtractResult.ok [] (Module.mk [Section.other 7])
    ∧ (∀ s ∈ (Module.mk [Section.other 7]).sections, isBindgenSection s = false)
    ∧ (Module.mk [Section.other 7]).sections =
        testModuleEmptyPayload.sections.filter (fun s => !isBindgenSection s) := by
  have hps : processSections testDecoders "1" "0.2" 0 testModuleEmptyPayload.sections =
      Except.ok ([], [0]) := by
    show processSections testDecoders "1" "0.2" 0
      [Section.custom wbindgenSectionName [], Section.other 7] = _
    rw [processSections, if_pos rfl, processPayload_nil, processSections, processSections]
    rfl
  have hex : extract_programs testDecoders "1" "0.2" testModuleEmptyPayload =
      ExtractResult.ok [] (Module.mk [Section.other 7]) := by
    unfold extract_programs
    rw [hps]
    rfl
  have hc := c3_strip_sections testDecoders "1" "0.2" testModuleEmptyPayload []
    (Module.mk [Section.other 7]) hex
  exact ⟨hex, hc.1, hc.2⟩

/-- C2: the version compatibility gate.  (1) The diagnostic literally names
the producing and consuming versions.  (2) A record whose decoded
schema-version field differs from the compiled-in one makes the decoding loop
fail with that diagnostic — regardless of the rest of the record's content
(the full-record decoder is never consulted) and of the remaining payload.
(3) Any extraction failure aborts `_generate` with the wrapped message and an
empty effect log: nothing was written and the binding-generation pass — the
only place descriptors are resolved — never ran. -/
theorem c2_version_gate :
    (∀ theirs mine : String,
        versionMismatchMsg theirs mine =
          versionMsgA ++ theirs ++ versionMsgB ++ mine ++ versionMsgC)
    ∧ (∀ (dec : Decoders) (sv ver : String) (bytes rest : List Nat) (p : ProgramOnlySchema),
        bytes.length < 4294967296 →
        dec.programOnly bytes = Except.ok p →
        p.schema_version ≠ sv →
        processPayload dec sv ver (lenLE bytes.length ++ (bytes ++ rest)) =
          Except.error (RecErr.bailed (versionMismatchMsg p.version ver)))
    ∧ (∀ (b : Bindgen) (c : Collab) (out_dir name msg : String) (m m' : Module),
        b.input = Input.module m name →
        extract_programs c.decoders c.schemaVersionConst c.versionConst m =
          ExtractResult.err msg m' →
        Bindgen._generate b c out_dir =
          (GenOutcome.error ("failed to extract wasm-bindgen custom sections: " ++ msg), [])) := by
  refine ⟨fun _ _ => rfl, processPayload_versionGate, ?_⟩
  intro b c out_dir name msg m m' hin hext
  unfold Bindgen._generate
  rw [hin]
  show generateAfterInput b c out_dir name m [] = _
  unfold generateAfterInput
  rw [hext]

/-- C2 (witness): the gate at the concrete record `[9]` (schema version `"0"`
against compiled-in `"1"`), both at the payload level and through a full
`_generate` run on a pre-parsed module input. -/
theorem c2_version_gate_witness :
    processPayload testDecoders "1" "0.2" (lenLE ([9] : List Nat).length ++ ([9] ++ [])) =
      Except.error (RecErr.bailed (versionMismatchMsg "0.0.1" "0.2"))
    ∧ Bindgen._generate testBindgenMismatch testCollab "out" =
        (GenOutcome.error ("failed to extract wasm-bindgen custom sections: " ++
          versionMismatchMsg "0.0.1" "0.2"), []) := by
  constructor
  · exact c2_version_gate.2.1 testDecoders "1" "0.2" [9] [] ⟨"0", "0.0.1"⟩
      (by decide) rfl (by decide)
  · apply c2_version_gate.2.2 testBindgenMismatch testCollab "out" "m"
      (versionMismatchMsg "0.0.1" "0.2") testModuleMismatch testModuleMismatch rfl
    have h1 : processPayload testDecoders "1" "0.2" [1, 0, 0, 0, 9] =
        Except.error (RecErr.bailed (versionMismatchMsg "0.0.1" "0.2")) :=
      processPayload_versionGate testDecoders "1" "0.2" [9] [] ⟨"0", "0.0.1"⟩
        (by decide) rfl (by decide)
    have h2 : processSections testDecoders "1" "0.2" 0 testModuleMismatch.sections =
        Except.error (RecErr.bailed (versionMismatchMsg "0.0.1" "0.2")) := by
      show processSections testDecoders "1" "0.2" 0
        [Section.custom wbindgenSectionName [1, 0, 0, 0, 9]] = _
      rw [processSections, if_pos rfl, h1]
    show extract_programs testDecoders "1" "0.2" testModuleMismatch = _
    unfold extract_programs
    rw [h2]

/-- C10: `_generate` on a `Bindgen` whose input is still `Input::None` fails
immediately with "must have an input by now"; the empty effect log shows no
file was read, no metadata extracted, and no artifact written. -/
theorem c10_no_input_error (b : Bindgen) (c : Collab) (out_dir : String)
    (h : b.input = Input.none) :
    Bindgen._generate b c out_dir = (GenOutcome.error "must have an input by now", []) := by
  unfold Bindgen._generate
  rw [h]

/-- C10 (witness): a freshly constructed `Bindgen` has no input, and
`_generate` fails accordingly. -/
theorem c10_no_input_error_witness :
    Bindgen._generate (Bindgen.new false) testCollab "out" =
      (GenOutcome.error "must have an input by now", []) :=
  c10_no_input_error (Bindgen.new false) testCollab "out" rfl

/-- C5: the Deployment Shim Builder's import list is deterministic: two
modules declaring the same set of imported module names (any order, any
multiplicity) produce the same `importedModules` list, that list is strictly
sorted (hence alphabetical and duplicate-free), and the emitted
import/require assignment lines are identical for either shim variant. -/
theorem c5_shim_import_determinism (m1 m2 : Module)
    (h : ∀ x, x ∈ entryModules m1 ↔ x ∈ entryModules m2) :
    importedModules m1 = importedModules m2
    ∧ (importedModules m1).Sorted (· < ·)
    ∧ ∀ e : Bool, importAssignLines e (importedModules m1) =
        importAssignLines e (importedModules m2) := by
  have hs1 : (importedModules m1).Sorted (· < ·) :=
    sorted_foldl_insert (entryModules m1) [] List.sorted_nil
  have hs2 : (importedModules m2).Sorted (· < ·) :=
    sorted_foldl_insert (entryModules m2) [] List.sorted_nil
  have heq : importedModules m1 = importedModules m2 := by
    apply sorted_mem_ext _ _ hs1 hs2
    intro x
    unfold importedModules
    rw [mem_foldl_insert, mem_foldl_insert]
    simp [h x]
  exact ⟨heq, hs1, fun e => by rw [heq]⟩

/-- C5 (witness): the theorem applied to the modules importing `b, a, b` and
`a, b`: both give the sorted duplicate-free list and identical require
lines. -/
theorem c5_shim_import_determinism_witness :
    importedModules testModuleImportsBAB = importedModules testModuleImportsAB
    ∧ (importedModules testModuleImportsBAB).Sorted (· < ·)
    ∧ importAssignLines false (importedModules testModuleImportsBAB) =
        importAssignLines false (importedModules testModuleImportsAB)
    ∧ importAssignLines true (importedModules testModuleImportsBAB) =
        importAssignLines true (importedModules testModuleImportsAB) := by
  have h : ∀ x, x ∈ entryModules testModuleImportsBAB ↔ x ∈ entryModules testModuleImportsAB := by
    intro x
    show x ∈ ["b", "a", "b"] ↔ x ∈ ["a", "b"]
    simp [List.mem_cons]
    tauto
  have hc := c5_shim_import_determinism testModuleImportsBAB testModuleImportsAB h
  exact ⟨hc.1, hc.2.1, hc.2.2 false, hc.2.2 true⟩

/-- C7: for any module whose import section declares exactly the one module
name `env`, the CommonJS shim contains exactly one line
`imports['env'] = require('env');`, and its final non-empty line is
`module.exports = wasmInstance.exports;`. -/
theorem c7_commonjs_shim (b : Bindgen) (m : Module)
    (hflag : b.nodejs_experimental_modules = false)
    (henv : ∀ x, x ∈ entryModules m ↔ x = "env") :
    ((rustLines (generate_node_wasm_import b m "test_bg.wasm")).filter
        (fun l => l == "imports[\x27env\x27] = require(\x27env\x27);")).length = 1
    ∧ ((rustLines (generate_node_wasm_import b m "test_bg.wasm")).filter
        (fun l => !(l == ""))).getLast? = some "module.exports = wasmInstance.exports;" := by
  have himp : importedModules m = ["env"] := by
    apply sorted_mem_ext _ _ (sorted_foldl_insert (entryModules m) [] List.sorted_nil)
      (by simp)
    intro x
    rw [mem_foldl_insert]
    simp [henv x]
  simp only [generate_node_wasm_import, hflag, himp, Bool.false_eq_true, if_false]
  decide

/-- C7 (witness): the theorem applied to the concrete module whose import
section declares `env` once. -/
theorem c7_commonjs_shim_witness :
    ((rustLines (generate_node_wasm_import (Bindgen.new false) testModuleEnv
        "test_bg.wasm")).filter
          (fun l => l == "imports[\x27env\x27] = require(\x27env\x27);")).length = 1
    ∧ ((rustLines (generate_node_wasm_import (Bindgen.new false) testModuleEnv
        "test_bg.wasm")).filter
          (fun l => !(l == ""))).getLast? = some "module.exports = wasmInstance.exports;" :=
  c7_commonjs_shim (Bindgen.new false) testModuleEnv rfl
    (by intro x; show x ∈ ["env"] ↔ x = "env"; simp)

end CliSupport
